/-
  Verification of the LISA test orchestration core.

  Shallow embedding of:
  - lisa/testsuite.py   : TestResult.set_status, retry_call usage, TestSuite.start
  - lisa/lisarunner.py  : LisaRunner.start (environment loop, sweep, exit code)
  - lisa/util/subclasses.py : Factory registration and lookup

  Python hooks that may raise are modelled as functions from the attempt
  index to Option String: none means the call returns normally, some e
  means the call raises an exception whose message is e.

  The platform, the Environment objects, the capability check internals
  (search_space) and the notifier live outside the sources under
  verification and are external collaborators of the core; they enter the
  model as oracle inputs (deploy outcomes, check results and reasons,
  hook outcomes), while the control flow of the runner and of the
  execution engine is translated from the source. The cross thread stop
  signal of TestSuite is not modelled: a run is a single sequential
  control flow with no stop request, as in the concurrency free reading
  of the scheduler.
-/
import Mathlib

set_option maxHeartbeats 1000000

/-- Test statuses, mirroring the TestStatus enum of lisa/testsuite.py. -/
inductive TestStatus where
  | NOTRUN
  | RUNNING
  | FAILED
  | PASSED
  | SKIPPED
  | ATTEMPTED
deriving DecidableEq, Repr

/-- The terminal statuses a workload can end a run with. -/
def terminalStatuses : List TestStatus :=
  [TestStatus.FAILED, TestStatus.PASSED, TestStatus.SKIPPED, TestStatus.ATTEMPTED]

/-- Model of the mutable part of a TestResult, plus the trace of emitted
status notifications, which the code sends through notifier.notify. -/
structure TestResult where
  status : TestStatus
  message : String
  notified : List TestStatus
deriving DecidableEq, Repr

def dfltTestResult : TestResult :=
  { status := TestStatus.NOTRUN, message := "", notified := [] }

/-- Python "\n".join for a list of strings. -/
def joinLines : List String → String
  | [] => ""
  | [s] => s
  | s :: rest => s ++ "\n" ++ joinLines rest

/-- Model of TestResult.set_status. The message is updated first when the
message argument is truthy, prepending the existing message when non empty;
the status is updated and a notification emitted only when the new status
differs from the current one. -/
def set_status (r : TestResult) (newStatus : TestStatus) (message : List String) : TestResult :=
  let msg :=
    if message = [] then r.message
    else if r.message = "" then joinLines message
    else joinLines (r.message :: message)
  if r.status = newStatus then
    { status := r.status, message := msg, notified := r.notified }
  else
    { status := newStatus, message := msg, notified := r.notified ++ [newStatus] }

/-- Auxiliary loop of retry_call: t tries remaining, k calls made so far,
e the message of the last exception. Returns total call count and either
none for success or the last exception message. -/
def retryAux (hook : Nat → Option String) : Nat → Nat → String → Nat × Option String
  | 0, k, e => (k, some e)
  | t + 1, k, _ =>
    match hook k with
    | none => (k + 1, none)
    | some e => retryAux hook t (k + 1) e

/-- Model of retry.api.retry_call with a fixed tries budget: the hook is
invoked until it returns normally or the budget is exhausted. -/
def retry_call (hook : Nat → Option String) (tries : Nat) : Nat × Option String :=
  retryAux hook tries 0 ""

/-- Per workload inputs of the execution engine: the runtime retry and
ignore_failure settings, and the three case level hooks. -/
structure CaseSpec where
  retry : Nat
  ignore_failure : Bool
  before_case : Nat → Option String
  body : Nat → Option String
  after_case : Nat → Option String

/-- Invocation counts of the case level hooks during one workload. -/
structure CaseTrace where
  beforeCaseAttempts : Nat
  bodyAttempts : Nat
  afterCaseAttempts : Nat
deriving DecidableEq, Repr

def dfltCaseTrace : CaseTrace := { beforeCaseAttempts := 0, bodyAttempts := 0, afterCaseAttempts := 0 }

/-- Model of the per workload segment of TestSuite.start: before_case with
retry budget retry + 1 (exhaustion marks SKIPPED and suppresses the body),
then the body with the same budget (success PASSED, exhaustion ATTEMPTED
when ignore_failure else FAILED), then after_case with the same budget,
whose outcome is discarded. When the suite level before_suite failed,
isSuiteContinue is false and the workload is marked SKIPPED with the
suite error message without invoking before_case or the body. -/
def runCase (spec : CaseSpec) (isSuiteContinue : Bool) (suiteErrorMessage : String)
    (r : TestResult) : TestResult × CaseTrace :=
  let aAtt := (retry_call spec.after_case (spec.retry + 1)).1
  if isSuiteContinue then
    let b := retry_call spec.before_case (spec.retry + 1)
    match b.2 with
    | some e =>
      (set_status r TestStatus.SKIPPED ["before_case: " ++ e],
        { beforeCaseAttempts := b.1, bodyAttempts := 0, afterCaseAttempts := aAtt })
    | none =>
      let t := retry_call spec.body (spec.retry + 1)
      match t.2 with
      | none =>
        (set_status r TestStatus.PASSED [],
          { beforeCaseAttempts := b.1, bodyAttempts := t.1, afterCaseAttempts := aAtt })
      | some e =>
        if spec.ignore_failure then
          (set_status r TestStatus.ATTEMPTED [e],
            { beforeCaseAttempts := b.1, bodyAttempts := t.1, afterCaseAttempts := aAtt })
        else
          (set_status r TestStatus.FAILED ["failed: " ++ e],
            { beforeCaseAttempts := b.1, bodyAttempts := t.1, afterCaseAttempts := aAtt })
  else
    (set_status r TestStatus.SKIPPED [suiteErrorMessage],
      { beforeCaseAttempts := 0, bodyAttempts := 0, afterCaseAttempts := aAtt })

/-- Suite level hooks: before_suite runs once (not retried); after_suite
runs once at the end and its failure is only logged. -/
structure SuiteSpec where
  before_suite : Option String
  after_suite : Option String

def suiteContinue (bs : Option String) : Bool := bs.isNone

def suiteErrMsg (bs : Option String) : String :=
  match bs with
  | none => ""
  | some e => "before_suite: " ++ e

/-- Model of TestSuite.start over an ordered batch: run before_suite once,
process every workload with runCase, run after_suite exactly once at the
end regardless of outcomes. The second component is the number of
after_suite invocations. -/
def suiteStart (suite : SuiteSpec) (cases : List (CaseSpec × TestResult)) :
    List (TestResult × CaseTrace) × Nat :=
  let isCont := suiteContinue suite.before_suite
  let errMsg := suiteErrMsg suite.before_suite
  (cases.map (fun c => runCase c.1 isCont errMsg c.2), 1)

/- Basic lemmas about set_status. -/

theorem set_status_status (r : TestResult) (s : TestStatus) (m : List String) :
    (set_status r s m).status = s := by
  unfold set_status
  by_cases h : r.status = s <;> simp [h]

theorem set_status_notified (r : TestResult) (s : TestStatus) (m : List String) :
    (set_status r s m).notified =
      if r.status = s then r.notified else r.notified ++ [s] := by
  unfold set_status
  by_cases h : r.status = s <;> simp [h]

theorem set_status_message_of_empty (r : TestResult) (s : TestStatus) (m : List String)
    (hr : r.message = "") (hm : m ≠ []) :
    (set_status r s m).message = joinLines m := by
  unfold set_status
  by_cases h : r.status = s <;> simp [h, hr, hm]

theorem set_status_notified_no_notrun (r : TestResult) (s : TestStatus) (m : List String)
    (hs : s ≠ TestStatus.NOTRUN) (hr : TestStatus.NOTRUN ∉ r.notified) :
    TestStatus.NOTRUN ∉ (set_status r s m).notified := by
  rw [set_status_notified]
  by_cases h : r.status = s <;> simp [h, hr, Ne.symm hs]

/- Basic lemmas about retry_call. -/

theorem retryAux_fst_ge (hook : Nat → Option String) :
    ∀ (t k : Nat) (e : String), k ≤ (retryAux hook t k e).1 := by
  intro t
  induction t with
  | zero => intro k e; simp [retryAux]
  | succ t ih =>
    intro k e
    simp only [retryAux]
    cases hook k with
    | none => simp
    | some e2 => exact Nat.le_trans (Nat.le_succ k) (ih (k + 1) e2)

theorem retry_call_fst_pos (hook : Nat → Option String) (n : Nat) :
    1 ≤ (retry_call hook (n + 1)).1 := by
  unfold retry_call
  simp only [retryAux]
  cases hook 0 with
  | none => simp
  | some e => exact retryAux_fst_ge hook n 1 e

theorem retryAux_all_fail (hook : Nat → Option String) (hfail : ∀ j, hook j ≠ none) :
    ∀ (t k : Nat) (e : String),
      (retryAux hook t k e).1 = k + t ∧ (retryAux hook t k e).2 ≠ none := by
  intro t
  induction t with
  | zero => intro k e; simp [retryAux]
  | succ t ih =>
    intro k e
    simp only [retryAux]
    cases h : hook k with
    | none => exact absurd h (hfail k)
    | some e2 =>
      show (retryAux hook t (k + 1) e2).1 = k + (t + 1) ∧
        (retryAux hook t (k + 1) e2).2 ≠ none
      rcases ih (k + 1) e2 with ⟨h1, h2⟩
      exact ⟨by omega, h2⟩

theorem retry_call_all_fail (hook : Nat → Option String) (t : Nat)
    (hfail : ∀ j, hook j ≠ none) :
    (retry_call hook t).1 = t ∧ (retry_call hook t).2 ≠ none := by
  unfold retry_call
  have h := retryAux_all_fail hook hfail t 0 ""
  simpa using h

/- Model of LisaRunner.start (lisa/lisarunner.py). The platform, the
environment objects and the capability check internals live outside src;
they are treated as oracles supplied in the run input, while the control
flow of the runner itself is translated from the source. -/

/-- Outcome of platform.deploy_environment for one environment: the
environment becomes ready, stays not ready, or the platform raises
WaitMoreResourceError. -/
inductive DeployResult where
  | ready
  | notReady
  | waitMoreResource
deriving DecidableEq, Repr

/-- Static data of one selected workload: its suite name (grouping key),
the runtime settings and the hooks of its suite. platformCheck is the
outcome of the platform type check of _merge_test_requirements: none when
the requirement is absent or satisfied, some reasons when it fails. -/
structure CaseData where
  suiteName : String
  useNewEnvironment : Bool
  retry : Nat
  ignoreFailure : Bool
  beforeCase : Nat → Option String
  body : Nat → Option String
  afterCase : Nat → Option String
  platformCheck : Option (List String)

def dfltCaseData : CaseData :=
  { suiteName := "", useNewEnvironment := false, retry := 0, ignoreFailure := false,
    beforeCase := fun _ => none, body := fun _ => none, afterCase := fun _ => none,
    platformCheck := none }

/-- Whole run input: the selected workloads, the prepared environments in
provisioning order, the deploy outcome per environment, the capability
check oracle (result and reasons appended on a saving check) per workload
and environment, and the before_suite outcome per suite instantiation. -/
structure RunInput where
  cases : List CaseData
  envNames : List String
  deploy : Nat → DeployResult
  check : Nat → Nat → Bool × List String
  beforeSuite : Nat → Option String

/-- Mutable per workload state held by the runner: the TestResult, the
accumulated capability check reasons and the assigned environment name. -/
structure ResultState where
  result : TestResult
  checkResults : Option (List String)
  envName : String
deriving DecidableEq, Repr

def dfltResultState : ResultState :=
  { result := dfltTestResult, checkResults := none, envName := "" }

/-- Model of check_environment with save_reason true: the oracle result is
merged into the check_results of the workload. -/
def saveCheck (results : List ResultState) (i : Nat) (chk : Bool × List String) :
    List ResultState :=
  let rs := results.getD i dfltResultState
  let cr :=
    match rs.checkResults with
    | none => some chk.2
    | some old => some (old ++ chk.2)
  results.set i { rs with checkResults := cr }

/-- The is_needed computation: Python any over the runnable workloads,
short circuiting at the first workload whose requirement the environment
satisfies; every evaluated check saves its reasons. -/
def anyCheck (inp : RunInput) (e : Nat) : List Nat → List ResultState → Bool × List ResultState
  | [], results => (false, results)
  | i :: rest, results =>
    if (results.getD i dfltResultState).result.status = TestStatus.NOTRUN then
      let chk := inp.check i e
      let results2 := saveCheck results i chk
      if chk.1 then (true, results2) else anyCheck inp e rest results2
    else anyCheck inp e rest results

/-- The CaseSpec of one selected workload. -/
def caseSpecOf (cd : CaseData) : CaseSpec :=
  { retry := cd.retry, ignore_failure := cd.ignoreFailure,
    before_case := cd.beforeCase, body := cd.body, after_case := cd.afterCase }

/-- One sequential step of a batch run: process workload i with runCase and
store the updated result and the environment name. -/
def runCaseAt (inp : RunInput) (e : Nat) (isCont : Bool) (errMsg : String)
    (acc : List ResultState) (i : Nat) : List ResultState :=
  let rs := acc.getD i dfltResultState
  let out := runCase (caseSpecOf (inp.cases.getD i dfltCaseData)) isCont errMsg rs.result
  acc.set i { rs with result := out.1, envName := inp.envNames.getD e "" }

/-- Model of _run_suite followed by TestSuite.start for one batch, indexed
into the runner state: assigns the environment name to every case of the
batch and processes each sequentially with runCase. Returns the updated
results and the incremented suite instantiation counter. -/
def runSuiteAt (inp : RunInput) (e : Nat) (sc : Nat) (batch : List Nat)
    (results : List ResultState) : List ResultState × Nat :=
  let bs := inp.beforeSuite sc
  (batch.foldl (runCaseAt inp e (suiteContinue bs) (suiteErrMsg bs)) results, sc + 1)

/-- The loop over workloads demanding a new environment: the first one
whose requirement the environment satisfies is run as a batch of one. -/
def newEnvLoop (inp : RunInput) (e : Nat) :
    List Nat → List ResultState → Nat → List ResultState × Nat
  | [], results, sc => (results, sc)
  | i :: rest, results, sc =>
    let chk := inp.check i e
    let results2 := saveCheck results i chk
    if chk.1 then runSuiteAt inp e sc [i] results2
    else newEnvLoop inp e rest results2 sc

/-- The grouping loop: contiguous batches by suite name over the runnable,
requirement satisfying, non isolation workloads; a batch flushes when the
suite changes. Returns the pending batch, the results and the counter. -/
def groupLoop (inp : RunInput) (e : Nat) :
    List Nat → List Nat → Option String → List ResultState → Nat →
      List Nat × List ResultState × Nat
  | [], grouped, _, results, sc => (grouped, results, sc)
  | i :: rest, grouped, currentSuite, results, sc =>
    if (results.getD i dfltResultState).result.status = TestStatus.NOTRUN then
      let chk := inp.check i e
      let results2 := saveCheck results i chk
      if chk.1 then
        let cd := inp.cases.getD i dfltCaseData
        if cd.useNewEnvironment then
          groupLoop inp e rest grouped currentSuite results2 sc
        else
          if currentSuite ≠ some cd.suiteName ∧ grouped ≠ [] then
            let fl := runSuiteAt inp e sc grouped results2
            groupLoop inp e rest [i] (some cd.suiteName) fl.1 fl.2
          else
            groupLoop inp e rest (grouped ++ [i]) (some cd.suiteName) results2 sc
      else groupLoop inp e rest grouped currentSuite results2 sc
    else groupLoop inp e rest grouped currentSuite results sc

/-- Stable insertion used to model the stable Python list sort. -/
def insertSorted (key : Nat → String) (a : Nat) : List Nat → List Nat
  | [] => [a]
  | b :: l => if key b < key a then b :: insertSorted key a l else a :: b :: l

/-- Stable sort of workload indices by suite name, as can_run_results.sort
with the suite name key. -/
def sortBySuite (inp : RunInput) (l : List Nat) : List Nat :=
  l.foldr (insertSorted (fun i => (inp.cases.getD i dfltCaseData).suiteName)) []

/-- Runner loop state: the per workload states, the current
can_run_results as indices, the suite instantiation counter, and traces of
the iterated environments, the deploy calls with their outcomes, and the
delete_environment calls. -/
structure RState where
  results : List ResultState
  canRun : List Nat
  suiteCalls : Nat
  iterated : List Nat
  deployCalls : List (Nat × DeployResult)
  deleteCalls : List Nat
deriving DecidableEq, Repr

/-- The refiltered and sorted can_run_results computed at the top of each
environment iteration. -/
def canRunSorted (inp : RunInput) (s : RState) : List Nat :=
  sortBySuite inp (s.canRun.filter
    (fun i => (s.results.getD i dfltResultState).result.status = TestStatus.NOTRUN))

/-- The assignment phase of one iteration once the environment is ready:
the first isolation workload whose requirement is satisfied runs alone,
then the grouped batches run, flushing the pending batch at the end. -/
def envDeployed (inp : RunInput) (e : Nat) (cr2 : List Nat)
    (results : List ResultState) (sc : Nat) : List ResultState × Nat :=
  let newEnvList := cr2.filter (fun i => (inp.cases.getD i dfltCaseData).useNewEnvironment)
  let ne := newEnvLoop inp e newEnvList results sc
  let g := groupLoop inp e cr2 [] none ne.1 ne.2
  if g.1.isEmpty then (g.2.1, g.2.2) else runSuiteAt inp e g.2.2 g.1 g.2.1

/-- One iteration of the environment loop, mirroring lines 54 to 138 of
lisarunner.py: refilter and sort the runnable set, break when empty (first
component true), skip the environment when no runnable workload needs it,
deploy (WaitMoreResourceError or a not ready environment skip the
environment), run the isolation workload then the grouped batches, and in
the finally clause call delete_environment only when the environment is
ready, which is the case exactly on the path where deploy returned
ready. -/
def envIterate (inp : RunInput) (e : Nat) (s : RState) : Bool × RState :=
  let canRun2 := canRunSorted inp s
  let s0 := { s with iterated := s.iterated ++ [e] }
  if canRun2.isEmpty then
    (true, { s0 with canRun := canRun2 })
  else
    let ac := anyCheck inp e canRun2 s0.results
    let s1 := { s0 with results := ac.2, canRun := canRun2 }
    if ac.1 = false then
      (false, s1)
    else
      let dres := inp.deploy e
      let s2 := { s1 with deployCalls := s1.deployCalls ++ [(e, dres)] }
      match dres with
      | DeployResult.waitMoreResource => (false, s2)
      | DeployResult.notReady => (false, s2)
      | DeployResult.ready =>
        let fl := envDeployed inp e canRun2 s2.results s2.suiteCalls
        (false, { s2 with
          results := fl.1
          suiteCalls := fl.2
          deleteCalls := s2.deleteCalls ++ [e] })

/-- The environment loop of LisaRunner.start: iterate the prepared
environments in order, stopping early when an iteration signals the
break. -/
def envLoop (inp : RunInput) : List Nat → RState → RState
  | [], s => s
  | e :: rest, s =>
    let r := envIterate inp e s
    if r.1 then r.2 else envLoop inp rest r.2

/-- Python repr of a list of strings, as an f string formats the reasons
list of a ResultReason. -/
def pyStrRepr (s : String) : String :=
  String.singleton (Char.ofNat 39) ++ s ++ String.singleton (Char.ofNat 39)

def pyListRepr (l : List String) : String :=
  "[" ++ String.intercalate ", " (l.map pyStrRepr) ++ "]"

/-- The skip reason for a workload left without a fit environment: the
accumulated check reasons are appended when any were recorded. -/
def noEnvReason (cr : Option (List String)) : String :=
  match cr with
  | some l => if l ≠ [] then "no available environment: " ++ pyListRepr l
              else "no available environment"
  | none => "no available environment"

/-- The final sweep step for one workload index: a workload still NOTRUN
is marked SKIPPED with the no available environment reason. -/
def sweepOne (results : List ResultState) (i : Nat) : List ResultState :=
  if (results.getD i dfltResultState).result.status = TestStatus.NOTRUN then
    results.set i
      { results.getD i dfltResultState with
        result := set_status (results.getD i dfltResultState).result TestStatus.SKIPPED
          [noEnvReason (results.getD i dfltResultState).checkResults] }
  else results

/-- The final sweep over the remaining can_run_results. -/
def sweep (canRun : List Nat) (results : List ResultState) : List ResultState :=
  canRun.foldl sweepOne results

/-- The platform type check part of _merge_test_requirements: workloads
whose platform requirement fails are marked SKIPPED with the check
reasons before any environment is visited. -/
def mergeReqAux (inp : RunInput) : Nat → List ResultState → List ResultState
  | _, [] => []
  | i, r :: rest =>
    let r2 :=
      match (inp.cases.getD i dfltCaseData).platformCheck with
      | some reasons => { r with result := set_status r.result TestStatus.SKIPPED reasons }
      | none => r
    r2 :: mergeReqAux inp (i + 1) rest

/-- Model of the terminal status count dictionary built at the end of
LisaRunner.start. -/
def resultCount (results : List ResultState) : TestStatus → Nat :=
  results.foldl
    (fun d r => fun st => if st = r.result.status then d r.result.status + 1 else d st)
    (fun _ => 0)

/-- The runner state before the environment loop: one NOTRUN result per
selected workload, then the platform type merge; can_run_results starts as
the whole selection. -/
def runnerInitState (inp : RunInput) : RState :=
  { results := mergeReqAux inp 0 (inp.cases.map (fun _ => dfltResultState)),
    canRun := List.range inp.cases.length,
    suiteCalls := 0, iterated := [], deployCalls := [], deleteCalls := [] }

/-- The runner state after the environment loop. -/
def runnerLoopState (inp : RunInput) : RState :=
  envLoop inp (List.range inp.envNames.length) (runnerInitState inp)

/-- Observable output of LisaRunner.start. -/
structure RunOutput where
  results : List ResultState
  exit_code : Nat
  iterated : List Nat
  deployCalls : List (Nat × DeployResult)
  deleteCalls : List Nat
deriving DecidableEq, Repr

/-- Model of LisaRunner.start end to end: merge, environment loop, final
sweep of workloads without a fit environment, status counting, and the
exit code read from the FAILED count. -/
def lisaRunnerStart (inp : RunInput) : RunOutput :=
  let s1 := runnerLoopState inp
  let finalResults := sweep s1.canRun s1.results
  { results := finalResults,
    exit_code := resultCount finalResults TestStatus.FAILED,
    iterated := s1.iterated,
    deployCalls := s1.deployCalls,
    deleteCalls := s1.deleteCalls }

/- Model of lisa/util/subclasses.py Factory. Subclass registration is a
fold over the discovered subclasses in order; a name already present is
kept and the new registration only produces a warning. -/

/-- Model of Factory._initialize over a list of discovered subclasses,
each a pair of declared type name and implementation, starting from the
current registry content. -/
def factoryRegister (d : List (String × α)) (subs : List (String × α)) :
    List (String × α) :=
  subs.foldl (fun acc st =>
    match acc.find? (fun p => p.1 = st.1) with
    | some _ => acc
    | none => acc ++ [st]) d

/-- Model of Factory.create_by_type_name after initialization: look the
name up, none models the LisaException for an unknown name. -/
def create_by_type_name (d : List (String × α)) (name : String) : Option α :=
  (d.find? (fun p => p.1 = name)).map Prod.snd

/- List access helper lemmas. -/

theorem getD_set_self : ∀ (l : List α) (i : Nat) (v d : α), i < l.length →
    (l.set i v).getD i d = v := by
  intro l
  induction l with
  | nil => intro i v d h; simp at h
  | cons a l ih =>
    intro i v d h
    cases i with
    | zero => rfl
    | succ i =>
      simp only [List.set, List.getD, List.get?]
      have := ih i v d (by simpa using h)
      simpa [List.getD] using this

theorem getD_set_ne : ∀ (l : List α) (i j : Nat) (v d : α), i ≠ j →
    (l.set i v).getD j d = l.getD j d := by
  intro l
  induction l with
  | nil => intro i j v d h; simp [List.set]
  | cons a l ih =>
    intro i j v d h
    cases i with
    | zero =>
      cases j with
      | zero => exact absurd rfl h
      | succ j => rfl
    | succ i =>
      cases j with
      | zero => rfl
      | succ j =>
        simp only [List.set, List.getD, List.get?]
        have := ih i j v d (by omega)
        simpa [List.getD] using this

theorem getD_map (f : α → β) : ∀ (l : List α) (j : Nat) (d : α) (d2 : β), j < l.length →
    (l.map f).getD j d2 = f (l.getD j d) := by
  intro l
  induction l with
  | nil => intro j d d2 h; simp at h
  | cons a l ih =>
    intro j d d2 h
    cases j with
    | zero => rfl
    | succ j =>
      simp only [List.map, List.getD, List.get?]
      have := ih j d d2 (by simpa using h)
      simpa [List.getD] using this

theorem getD_eq_get : ∀ (l : List α) (i : Nat) (d : α) (h : i < l.length),
    l.getD i d = l.get ⟨i, h⟩ := by
  intro l
  induction l with
  | nil => intro i d h; simp at h
  | cons a l ih =>
    intro i d h
    cases i with
    | zero => rfl
    | succ i =>
      simp only [List.getD, List.get?, List.get]
      have := ih i d (by simpa using h)
      simpa [List.getD] using this

theorem mem_insertSorted (key : Nat → String) (x a : Nat) :
    ∀ (l : List Nat), a ∈ insertSorted key x l ↔ a = x ∨ a ∈ l := by
  intro l
  induction l with
  | nil => simp [insertSorted]
  | cons b l ih =>
    simp only [insertSorted]
    by_cases h : key b < key x
    · rw [if_pos h]
      simp only [List.mem_cons, ih]
      tauto
    · rw [if_neg h]
      simp only [List.mem_cons]

theorem mem_sortBySuite (inp : RunInput) (a : Nat) :
    ∀ (l : List Nat), a ∈ sortBySuite inp l ↔ a ∈ l := by
  intro l
  induction l with
  | nil => simp [sortBySuite]
  | cons b l ih =>
    have hrw : sortBySuite inp (b :: l) =
        insertSorted (fun i => (inp.cases.getD i dfltCaseData).suiteName) b
          (sortBySuite inp l) := rfl
    rw [hrw, mem_insertSorted, ih, List.mem_cons]

/- Shape of a runCase outcome: the result is always a set_status of the
input with a terminal status. -/

theorem terminal_ne_notrun (s : TestStatus) (h : s ∈ terminalStatuses) :
    s ≠ TestStatus.NOTRUN := by
  cases s <;> simp_all [terminalStatuses]

theorem runCase_shape (spec : CaseSpec) (c : Bool) (m : String) (r : TestResult) :
    ∃ s msgs, s ∈ terminalStatuses ∧ (runCase spec c m r).1 = set_status r s msgs := by
  unfold runCase
  cases c with
  | false =>
    exact ⟨TestStatus.SKIPPED, [m], by simp [terminalStatuses], rfl⟩
  | true =>
    simp only [if_pos]
    rcases hb : (retry_call spec.before_case (spec.retry + 1)).2 with _ | e
    · rcases ht : (retry_call spec.body (spec.retry + 1)).2 with _ | e2
      · exact ⟨TestStatus.PASSED, [], by simp [terminalStatuses], by simp [hb, ht]⟩
      · by_cases hig : spec.ignore_failure
        · exact ⟨TestStatus.ATTEMPTED, [e2], by simp [terminalStatuses], by simp [hb, ht, hig]⟩
        · exact ⟨TestStatus.FAILED, ["failed: " ++ e2], by simp [terminalStatuses],
            by simp [hb, ht, hig]⟩
    · exact ⟨TestStatus.SKIPPED, ["before_case: " ++ e], by simp [terminalStatuses],
        by simp [hb]⟩

theorem runCase_status_terminal (spec : CaseSpec) (c : Bool) (m : String) (r : TestResult) :
    (runCase spec c m r).1.status ∈ terminalStatuses := by
  rcases runCase_shape spec c m r with ⟨s, msgs, hs, heq⟩
  rw [heq, set_status_status]
  exact hs

theorem runCase_notified_pres (spec : CaseSpec) (c : Bool) (m : String) (r : TestResult)
    (h : TestStatus.NOTRUN ∉ r.notified) :
    TestStatus.NOTRUN ∉ (runCase spec c m r).1.notified := by
  rcases runCase_shape spec c m r with ⟨s, msgs, hs, heq⟩
  rw [heq]
  exact set_status_notified_no_notrun r s msgs (terminal_ne_notrun s hs) h

/- A step relation on the runner result list: an operation of the runner
either leaves the TestResult of an index unchanged, or replaces it with
one whose status is terminal and whose notification log stays free of
NOTRUN when it was. Every mutation of the runner satisfies it. -/

def ResultsStep (a b : List ResultState) : Prop :=
  b.length = a.length ∧
  ∀ i, i < a.length →
    (b.getD i dfltResultState).result = (a.getD i dfltResultState).result
    ∨ ((b.getD i dfltResultState).result.status ∈ terminalStatuses
       ∧ (TestStatus.NOTRUN ∉ (a.getD i dfltResultState).result.notified →
          TestStatus.NOTRUN ∉ (b.getD i dfltResultState).result.notified))

theorem resultsStep_refl (a : List ResultState) : ResultsStep a a :=
  ⟨rfl, fun _ _ => Or.inl rfl⟩

theorem resultsStep_trans {a b c : List ResultState}
    (h1 : ResultsStep a b) (h2 : ResultsStep b c) : ResultsStep a c := by
  obtain ⟨l1, p1⟩ := h1
  obtain ⟨l2, p2⟩ := h2
  refine ⟨l2.trans l1, fun i hi => ?_⟩
  have hib : i < b.length := by rw [l1]; exact hi
  rcases p2 i hib with h | ⟨ht, hn⟩
  · rcases p1 i hi with h1 | ⟨ht1, hn1⟩
    · exact Or.inl (h.trans h1)
    · exact Or.inr ⟨by rw [h]; exact ht1, fun hpre => by rw [h]; exact hn1 hpre⟩
  · rcases p1 i hi with h1 | ⟨ht1, hn1⟩
    · exact Or.inr ⟨ht, fun hpre => hn (by rw [h1]; exact hpre)⟩
    · exact Or.inr ⟨ht, fun hpre => hn (hn1 hpre)⟩

theorem saveCheck_step (results : List ResultState) (i : Nat) (chk : Bool × List String) :
    ResultsStep results (saveCheck results i chk) := by
  refine ⟨List.length_set _ _ _, fun j hj => ?_⟩
  by_cases hij : i = j
  · subst hij
    unfold saveCheck
    rw [getD_set_self _ _ _ _ hj]
    exact Or.inl rfl
  · unfold saveCheck
    rw [getD_set_ne _ _ _ _ _ hij]
    exact Or.inl rfl

theorem runCaseAt_step (inp : RunInput) (e : Nat) (c : Bool) (m : String)
    (acc : List ResultState) (i : Nat) :
    ResultsStep acc (runCaseAt inp e c m acc i) := by
  refine ⟨List.length_set _ _ _, fun j hj => ?_⟩
  by_cases hij : i = j
  · subst hij
    unfold runCaseAt
    rw [getD_set_self _ _ _ _ hj]
    refine Or.inr ⟨runCase_status_terminal _ _ _ _, fun hpre => ?_⟩
    exact runCase_notified_pres _ _ _ _ hpre
  · unfold runCaseAt
    rw [getD_set_ne _ _ _ _ _ hij]
    exact Or.inl rfl

theorem foldl_step {β : Type} (f : List ResultState → β → List ResultState)
    (hf : ∀ acc b, ResultsStep acc (f acc b)) :
    ∀ (l : List β) (acc : List ResultState), ResultsStep acc (l.foldl f acc) := by
  intro l
  induction l with
  | nil => intro acc; exact resultsStep_refl acc
  | cons b l ih =>
    intro acc
    exact resultsStep_trans (hf acc b) (ih (f acc b))

theorem runSuiteAt_step (inp : RunInput) (e sc : Nat) (batch : List Nat)
    (results : List ResultState) :
    ResultsStep results (runSuiteAt inp e sc batch results).1 := by
  unfold runSuiteAt
  exact foldl_step _ (fun acc i => runCaseAt_step inp e _ _ acc i) batch results

theorem anyCheck_step (inp : RunInput) (e : Nat) :
    ∀ (l : List Nat) (results : List ResultState),
      ResultsStep results (anyCheck inp e l results).2 := by
  intro l
  induction l with
  | nil => intro results; exact resultsStep_refl results
  | cons i rest ih =>
    intro results
    unfold anyCheck
    by_cases hst : (results.getD i dfltResultState).result.status = TestStatus.NOTRUN
    · rw [if_pos hst]
      by_cases hc : (inp.check i e).1
      · simp only [if_pos hc]
        exact saveCheck_step results i (inp.check i e)
      · simp only [if_neg hc]
        exact resultsStep_trans (saveCheck_step results i (inp.check i e))
          (ih (saveCheck results i (inp.check i e)))
    · rw [if_neg hst]
      exact ih results

theorem newEnvLoop_step (inp : RunInput) (e : Nat) :
    ∀ (l : List Nat) (results : List ResultState) (sc : Nat),
      ResultsStep results (newEnvLoop inp e l results sc).1 := by
  intro l
  induction l with
  | nil => intro results sc; exact resultsStep_refl results
  | cons i rest ih =>
    intro results sc
    unfold newEnvLoop
    by_cases hc : (inp.check i e).1
    · simp only [if_pos hc]
      exact resultsStep_trans (saveCheck_step results i (inp.check i e))
        (runSuiteAt_step inp e sc [i] _)
    · simp only [if_neg hc]
      exact resultsStep_trans (saveCheck_step results i (inp.check i e))
        (ih (saveCheck results i (inp.check i e)) sc)

theorem groupLoop_step (inp : RunInput) (e : Nat) :
    ∀ (l grouped : List Nat) (cs : Option String) (results : List ResultState) (sc : Nat),
      ResultsStep results (groupLoop inp e l grouped cs results sc).2.1 := by
  intro l
  induction l with
  | nil => intro grouped cs results sc; exact resultsStep_refl results
  | cons i rest ih =>
    intro grouped cs results sc
    unfold groupLoop
    by_cases hst : (results.getD i dfltResultState).result.status = TestStatus.NOTRUN
    · rw [if_pos hst]
      by_cases hc : (inp.check i e).1
      · simp only [if_pos hc]
        by_cases hnew : (inp.cases.getD i dfltCaseData).useNewEnvironment
        · simp only [if_pos hnew]
          exact resultsStep_trans (saveCheck_step results i (inp.check i e)) (ih _ _ _ _)
        · simp only [if_neg hnew]
          by_cases hfl : cs ≠ some (inp.cases.getD i dfltCaseData).suiteName ∧ grouped ≠ []
          · rw [if_pos hfl]
            exact resultsStep_trans (saveCheck_step results i (inp.check i e))
              (resultsStep_trans (runSuiteAt_step inp e sc grouped _) (ih _ _ _ _))
          · rw [if_neg hfl]
            exact resultsStep_trans (saveCheck_step results i (inp.check i e)) (ih _ _ _ _)
      · simp only [if_neg hc]
        exact resultsStep_trans (saveCheck_step results i (inp.check i e)) (ih _ _ _ _)
    · rw [if_neg hst]
      exact ih _ _ _ _

/- The runner loop invariant: result count is stable, every still NOTRUN
workload is in can_run_results with untouched message and notifications,
every status is NOTRUN or terminal, no NOTRUN notification was ever
emitted, and delete_environment was called exactly for the environments
whose deploy call returned ready. -/

def LoopInv (inp : RunInput) (s : RState) : Prop :=
  s.results.length = inp.cases.length ∧
  (∀ i, i < inp.cases.length →
    (s.results.getD i dfltResultState).result.status = TestStatus.NOTRUN →
      i ∈ s.canRun ∧
      (s.results.getD i dfltResultState).result.message = "" ∧
      (s.results.getD i dfltResultState).result.notified = []) ∧
  (∀ i, i < inp.cases.length →
    (s.results.getD i dfltResultState).result.status = TestStatus.NOTRUN ∨
    (s.results.getD i dfltResultState).result.status ∈ terminalStatuses) ∧
  (∀ i, i < inp.cases.length →
    TestStatus.NOTRUN ∉ (s.results.getD i dfltResultState).result.notified) ∧
  s.deleteCalls = (s.deployCalls.filter (fun p => p.2 = DeployResult.ready)).map Prod.fst

theorem LoopInv_of_step (inp : RunInput) (s : RState) (hinv : LoopInv inp s)
    (s2 : RState) (hb : ResultsStep s.results s2.results)
    (hcr : ∀ i, i < inp.cases.length →
      (s.results.getD i dfltResultState).result.status = TestStatus.NOTRUN →
      i ∈ s.canRun → i ∈ s2.canRun)
    (hdel : s2.deleteCalls =
      (s2.deployCalls.filter (fun p => p.2 = DeployResult.ready)).map Prod.fst) :
    LoopInv inp s2 := by
  obtain ⟨hlen, hclean, hstatus, hnotif, _⟩ := hinv
  obtain ⟨hblen, hbstep⟩ := hb
  refine ⟨hblen.trans hlen, ?_, ?_, ?_, hdel⟩
  · intro i hi hst
    have hi2 : i < s.results.length := by rw [hlen]; exact hi
    rcases hbstep i hi2 with hEq | ⟨hterm, _⟩
    · rw [hEq] at hst ⊢
      obtain ⟨hcrm, hmsg, hnotifd⟩ := hclean i hi hst
      exact ⟨hcr i hi hst hcrm, hmsg, hnotifd⟩
    · exact absurd hst (terminal_ne_notrun _ hterm)
  · intro i hi
    have hi2 : i < s.results.length := by rw [hlen]; exact hi
    rcases hbstep i hi2 with hEq | ⟨hterm, _⟩
    · rw [hEq]; exact hstatus i hi
    · exact Or.inr hterm
  · intro i hi
    have hi2 : i < s.results.length := by rw [hlen]; exact hi
    rcases hbstep i hi2 with hEq | ⟨_, hpres⟩
    · rw [hEq]; exact hnotif i hi
    · exact hpres (hnotif i hi)

theorem mem_canRunSorted (inp : RunInput) (s : RState) (i : Nat)
    (hi : i ∈ s.canRun)
    (hst : (s.results.getD i dfltResultState).result.status = TestStatus.NOTRUN) :
    i ∈ canRunSorted inp s := by
  unfold canRunSorted
  rw [mem_sortBySuite]
  refine List.mem_filter.mpr ⟨hi, ?_⟩
  simp only [decide_eq_true_eq]
  exact hst

theorem envDeployed_step (inp : RunInput) (e : Nat) (cr2 : List Nat)
    (results : List ResultState) (sc : Nat) :
    ResultsStep results (envDeployed inp e cr2 results sc).1 := by
  simp only [envDeployed]
  refine resultsStep_trans
    (newEnvLoop_step inp e
      (cr2.filter (fun i => (inp.cases.getD i dfltCaseData).useNewEnvironment)) results sc) ?_
  refine resultsStep_trans
    (groupLoop_step inp e cr2 [] none
      (newEnvLoop inp e
        (cr2.filter (fun i => (inp.cases.getD i dfltCaseData).useNewEnvironment)) results sc).1
      (newEnvLoop inp e
        (cr2.filter (fun i => (inp.cases.getD i dfltCaseData).useNewEnvironment)) results sc).2) ?_
  split
  · exact resultsStep_refl _
  · exact runSuiteAt_step inp e _ _ _

theorem envIterate_inv (inp : RunInput) (e : Nat) (s : RState) (hinv : LoopInv inp s) :
    LoopInv inp (envIterate inp e s).2 := by
  have hdel0 := hinv.2.2.2.2
  simp only [envIterate]
  split
  · refine LoopInv_of_step inp s hinv _ (resultsStep_refl _) ?_ ?_
    · intro i _ hst hmem
      exact mem_canRunSorted inp s i hmem hst
    · exact hdel0
  · split
    · refine LoopInv_of_step inp s hinv _
        (anyCheck_step inp e (canRunSorted inp s) s.results) ?_ ?_
      · intro i _ hst hmem
        exact mem_canRunSorted inp s i hmem hst
      · exact hdel0
    · split
      · refine LoopInv_of_step inp s hinv _
          (anyCheck_step inp e (canRunSorted inp s) s.results) ?_ ?_
        · intro i _ hst hmem
          exact mem_canRunSorted inp s i hmem hst
        · show s.deleteCalls = _
          rw [List.filter_append, hdel0]
          simp_all
      · refine LoopInv_of_step inp s hinv _
          (anyCheck_step inp e (canRunSorted inp s) s.results) ?_ ?_
        · intro i _ hst hmem
          exact mem_canRunSorted inp s i hmem hst
        · show s.deleteCalls = _
          rw [List.filter_append, hdel0]
          simp_all
      · refine LoopInv_of_step inp s hinv _ ?_ ?_ ?_
        · refine resultsStep_trans
            (anyCheck_step inp e (canRunSorted inp s) s.results) ?_
          exact envDeployed_step inp e (canRunSorted inp s) _ _
        · intro i _ hst hmem
          exact mem_canRunSorted inp s i hmem hst
        · show s.deleteCalls ++ [e] = _
          rw [List.filter_append, hdel0]
          simp_all

theorem envLoop_inv (inp : RunInput) :
    ∀ (envs : List Nat) (s : RState), LoopInv inp s → LoopInv inp (envLoop inp envs s) := by
  intro envs
  induction envs with
  | nil => intro s h; exact h
  | cons e rest ih =>
    intro s h
    unfold envLoop
    by_cases hb : (envIterate inp e s).1
    · rw [if_pos hb]
      exact envIterate_inv inp e s h
    · rw [if_neg hb]
      exact ih _ (envIterate_inv inp e s h)

/- Initial state invariant. -/

theorem mergeReqAux_length (inp : RunInput) :
    ∀ (l : List ResultState) (i : Nat), (mergeReqAux inp i l).length = l.length := by
  intro l
  induction l with
  | nil => intro i; rfl
  | cons r rest ih =>
    intro i
    simp only [mergeReqAux, List.length_cons]
    rw [ih (i + 1)]

theorem mergeReqAux_getD (inp : RunInput) :
    ∀ (l : List ResultState) (i j : Nat), j < l.length →
      (mergeReqAux inp i l).getD j dfltResultState =
        (match (inp.cases.getD (i + j) dfltCaseData).platformCheck with
         | some reasons =>
           { l.getD j dfltResultState with
             result := set_status (l.getD j dfltResultState).result TestStatus.SKIPPED reasons }
         | none => l.getD j dfltResultState) := by
  intro l
  induction l with
  | nil => intro i j h; simp at h
  | cons r rest ih =>
    intro i j h
    cases j with
    | zero =>
      simp only [mergeReqAux, Nat.add_zero]
      rcases (inp.cases.getD i dfltCaseData).platformCheck with _ | reasons <;> rfl
    | succ j =>
      have hrw : i + 1 + j = i + (j + 1) := by omega
      have hj : j < rest.length := by simpa using h
      have := ih (i + 1) j hj
      rw [hrw] at this
      simpa [mergeReqAux, List.getD] using this

theorem getD_map_const (c : α) : ∀ (l : List β) (j : Nat) (d : α), j < l.length →
    (l.map (fun _ => c)).getD j d = c := by
  intro l
  induction l with
  | nil => intro j d h; simp at h
  | cons b rest ih =>
    intro j d h
    cases j with
    | zero => rfl
    | succ j =>
      simp only [List.map, List.getD, List.get?]
      have := ih j d (by simpa using h)
      simpa [List.getD] using this

theorem runnerInit_inv (inp : RunInput) : LoopInv inp (runnerInitState inp) := by
  have hlen : (runnerInitState inp).results.length = inp.cases.length := by
    show (mergeReqAux inp 0 (inp.cases.map (fun _ => dfltResultState))).length = _
    rw [mergeReqAux_length, List.length_map]
  have hget : ∀ i, i < inp.cases.length →
      (runnerInitState inp).results.getD i dfltResultState =
        (match (inp.cases.getD i dfltCaseData).platformCheck with
         | some reasons =>
           { dfltResultState with
             result := set_status dfltTestResult TestStatus.SKIPPED reasons }
         | none => dfltResultState) := by
    intro i hi
    show (mergeReqAux inp 0 (inp.cases.map (fun _ => dfltResultState))).getD i dfltResultState = _
    rw [mergeReqAux_getD inp _ 0 i (by rw [List.length_map]; exact hi)]
    rw [getD_map_const dfltResultState inp.cases i dfltResultState hi]
    simp only [Nat.zero_add]
    rfl
  refine ⟨hlen, ?_, ?_, ?_, rfl⟩
  · intro i hi hst
    rw [hget i hi] at hst ⊢
    rcases hpc : (inp.cases.getD i dfltCaseData).platformCheck with _ | reasons
    · exact ⟨List.mem_range.mpr hi, rfl, rfl⟩
    · rw [hpc] at hst
      have hst2 : (set_status dfltTestResult TestStatus.SKIPPED reasons).status =
          TestStatus.NOTRUN := hst
      rw [set_status_status] at hst2
      exact absurd hst2 (by simp)
  · intro i hi
    rw [hget i hi]
    rcases hpc : (inp.cases.getD i dfltCaseData).platformCheck with _ | reasons
    · exact Or.inl rfl
    · refine Or.inr ?_
      show (set_status dfltTestResult TestStatus.SKIPPED reasons).status ∈ terminalStatuses
      rw [set_status_status]
      simp [terminalStatuses]
  · intro i hi
    rw [hget i hi]
    rcases hpc : (inp.cases.getD i dfltCaseData).platformCheck with _ | reasons
    · simp [dfltResultState, dfltTestResult]
    · show TestStatus.NOTRUN ∉ (set_status dfltTestResult TestStatus.SKIPPED reasons).notified
      exact set_status_notified_no_notrun dfltTestResult TestStatus.SKIPPED reasons
        (by simp) (by simp [dfltTestResult])

theorem runnerLoop_inv (inp : RunInput) : LoopInv inp (runnerLoopState inp) :=
  envLoop_inv inp (List.range inp.envNames.length) (runnerInitState inp) (runnerInit_inv inp)

/- Sweep lemmas. -/

theorem sweepOne_noop (results : List ResultState) (i : Nat)
    (h : (results.getD i dfltResultState).result.status ≠ TestStatus.NOTRUN) :
    sweepOne results i = results := by
  unfold sweepOne
  rw [if_neg h]

theorem sweepOne_getD_ne (results : List ResultState) (i j : Nat) (hij : i ≠ j) :
    (sweepOne results i).getD j dfltResultState = results.getD j dfltResultState := by
  unfold sweepOne
  split
  · exact getD_set_ne _ _ _ _ _ hij
  · rfl

theorem sweepOne_step (results : List ResultState) (i : Nat) :
    ResultsStep results (sweepOne results i) := by
  by_cases h : (results.getD i dfltResultState).result.status = TestStatus.NOTRUN
  · refine ⟨?_, ?_⟩
    · unfold sweepOne
      rw [if_pos h, List.length_set]
    · intro j hj
      by_cases hij : i = j
      · subst hij
        unfold sweepOne
        rw [if_pos h, getD_set_self _ _ _ _ hj]
        refine Or.inr ⟨?_, ?_⟩
        · rw [set_status_status]; simp [terminalStatuses]
        · intro hpre
          exact set_status_notified_no_notrun _ _ _ (by simp) hpre
      · rw [sweepOne_getD_ne results i j hij]
        exact Or.inl rfl
  · rw [sweepOne_noop results i h]
    exact (resultsStep_refl results).2 |> fun h2 => ⟨rfl, h2⟩

theorem sweep_step (l : List Nat) (results : List ResultState) :
    ResultsStep results (sweep l results) :=
  foldl_step sweepOne sweepOne_step l results

theorem sweep_length (l : List Nat) (results : List ResultState) :
    (sweep l results).length = results.length :=
  (sweep_step l results).1

theorem sweep_untouched : ∀ (l : List Nat) (results : List ResultState) (i : Nat),
    (results.getD i dfltResultState).result.status ≠ TestStatus.NOTRUN →
    (sweep l results).getD i dfltResultState = results.getD i dfltResultState := by
  intro l
  induction l with
  | nil => intro results i _; rfl
  | cons j rest ih =>
    intro results i hst
    show (sweep rest (sweepOne results j)).getD i dfltResultState = _
    by_cases hij : j = i
    · subst hij
      rw [sweepOne_noop results j hst]
      exact ih results j hst
    · have heq := sweepOne_getD_ne results j i hij
      rw [ih (sweepOne results j) i (by rw [heq]; exact hst), heq]

theorem sweep_applied : ∀ (l : List Nat) (results : List ResultState) (i : Nat),
    i ∈ l → i < results.length →
    (results.getD i dfltResultState).result.status = TestStatus.NOTRUN →
    (sweep l results).getD i dfltResultState =
      { results.getD i dfltResultState with
        result := set_status (results.getD i dfltResultState).result TestStatus.SKIPPED
          [noEnvReason (results.getD i dfltResultState).checkResults] } := by
  intro l
  induction l with
  | nil => intro results i hmem; simp at hmem
  | cons j rest ih =>
    intro results i hmem hlen hst
    show (sweep rest (sweepOne results j)).getD i dfltResultState = _
    by_cases hij : j = i
    · subst hij
      have hone : (sweepOne results j).getD j dfltResultState =
          { results.getD j dfltResultState with
            result := set_status (results.getD j dfltResultState).result TestStatus.SKIPPED
              [noEnvReason (results.getD j dfltResultState).checkResults] } := by
        unfold sweepOne
        rw [if_pos hst, getD_set_self _ _ _ _ hlen]
      rw [sweep_untouched rest (sweepOne results j) j
        (by rw [hone, set_status_status]; simp), hone]
    · cases hmem with
      | head => exact absurd rfl hij
      | tail _ hmem2 =>
        have heq := sweepOne_getD_ne results j i hij
        have hlen2 : i < (sweepOne results j).length := by
          unfold sweepOne
          split
          · rw [List.length_set]; exact hlen
          · exact hlen
        rw [ih (sweepOne results j) i hmem2 hlen2 (by rw [heq]; exact hst), heq]

/- Result counting. -/

theorem resultCount_aux :
    ∀ (l : List ResultState) (d : TestStatus → Nat) (st : TestStatus),
      (l.foldl
        (fun d r => fun s2 => if s2 = r.result.status then d r.result.status + 1 else d s2)
        d) st
        = d st + (l.filter (fun r => r.result.status = st)).length := by
  intro l
  induction l with
  | nil => intro d st; simp
  | cons r rest ih =>
    intro d st
    rw [List.foldl_cons, ih]
    by_cases h : st = r.result.status
    · rw [List.filter_cons_of_pos (by simp [h])]
      simp only [if_pos h, List.length_cons]
      rw [h]
      omega
    · rw [List.filter_cons_of_neg (by simp; exact fun hh => h hh.symm)]
      simp only [if_neg h]

theorem resultCount_eq (l : List ResultState) (st : TestStatus) :
    resultCount l st = (l.filter (fun r => r.result.status = st)).length := by
  unfold resultCount
  rw [resultCount_aux]
  omega

/- Branch characterizations of runCase. -/

theorem runCase_false_eq (spec : CaseSpec) (m : String) (r : TestResult) :
    runCase spec false m r =
      (set_status r TestStatus.SKIPPED [m],
        { beforeCaseAttempts := 0, bodyAttempts := 0,
          afterCaseAttempts := (retry_call spec.after_case (spec.retry + 1)).1 }) := rfl

theorem runCase_before_fail (spec : CaseSpec) (m : String) (r : TestResult) (e : String)
    (hb : (retry_call spec.before_case (spec.retry + 1)).2 = some e) :
    runCase spec true m r =
      (set_status r TestStatus.SKIPPED ["before_case: " ++ e],
        { beforeCaseAttempts := (retry_call spec.before_case (spec.retry + 1)).1,
          bodyAttempts := 0,
          afterCaseAttempts := (retry_call spec.after_case (spec.retry + 1)).1 }) := by
  simp only [runCase, hb, if_true]

theorem runCase_pass (spec : CaseSpec) (m : String) (r : TestResult)
    (hb : (retry_call spec.before_case (spec.retry + 1)).2 = none)
    (ht : (retry_call spec.body (spec.retry + 1)).2 = none) :
    runCase spec true m r =
      (set_status r TestStatus.PASSED [],
        { beforeCaseAttempts := (retry_call spec.before_case (spec.retry + 1)).1,
          bodyAttempts := (retry_call spec.body (spec.retry + 1)).1,
          afterCaseAttempts := (retry_call spec.after_case (spec.retry + 1)).1 }) := by
  simp only [runCase, hb, ht, if_true]

theorem runCase_body_fail (spec : CaseSpec) (m : String) (r : TestResult) (e : String)
    (hb : (retry_call spec.before_case (spec.retry + 1)).2 = none)
    (ht : (retry_call spec.body (spec.retry + 1)).2 = some e)
    (hig : spec.ignore_failure = false) :
    runCase spec true m r =
      (set_status r TestStatus.FAILED ["failed: " ++ e],
        { beforeCaseAttempts := (retry_call spec.before_case (spec.retry + 1)).1,
          bodyAttempts := (retry_call spec.body (spec.retry + 1)).1,
          afterCaseAttempts := (retry_call spec.after_case (spec.retry + 1)).1 }) := by
  simp only [runCase, hb, ht, hig, if_true]
  rfl

theorem runCase_body_fail_ignored (spec : CaseSpec) (m : String) (r : TestResult) (e : String)
    (hb : (retry_call spec.before_case (spec.retry + 1)).2 = none)
    (ht : (retry_call spec.body (spec.retry + 1)).2 = some e)
    (hig : spec.ignore_failure = true) :
    runCase spec true m r =
      (set_status r TestStatus.ATTEMPTED [e],
        { beforeCaseAttempts := (retry_call spec.before_case (spec.retry + 1)).1,
          bodyAttempts := (retry_call spec.body (spec.retry + 1)).1,
          afterCaseAttempts := (retry_call spec.after_case (spec.retry + 1)).1 }) := by
  simp only [runCase, hb, ht, hig, if_true]

theorem runCase_afterAttempts (spec : CaseSpec) (c : Bool) (m : String) (r : TestResult) :
    (runCase spec c m r).2.afterCaseAttempts =
      (retry_call spec.after_case (spec.retry + 1)).1 := by
  cases c with
  | false => rfl
  | true =>
    rcases hb : (retry_call spec.before_case (spec.retry + 1)).2 with _ | e
    · rcases ht : (retry_call spec.body (spec.retry + 1)).2 with _ | e2
      · rw [runCase_pass spec m r hb ht]
      · rcases hig : spec.ignore_failure with _ | _
        · rw [runCase_body_fail spec m r e2 hb ht hig]
        · rw [runCase_body_fail_ignored spec m r e2 hb ht hig]
    · rw [runCase_before_fail spec m r e hb]

/- Factory registration lemmas. -/

theorem find?_append_match {α : Type} (p : String × α → Bool) :
    ∀ (l1 l2 : List (String × α)),
      (l1 ++ l2).find? p =
        match l1.find? p with
        | some v => some v
        | none => l2.find? p := by
  intro l1
  induction l1 with
  | nil => intro l2; rfl
  | cons a l1 ih =>
    intro l2
    cases hpa : p a with
    | true =>
      rw [List.cons_append, List.find?_cons_of_pos _ hpa, List.find?_cons_of_pos _ hpa]
    | false =>
      rw [List.cons_append, List.find?_cons_of_neg _ (by simp [hpa]),
        List.find?_cons_of_neg _ (by simp [hpa]), ih]

theorem factoryRegister_find? {α : Type} (name : String) :
    ∀ (subs d : List (String × α)),
      (factoryRegister d subs).find? (fun p => p.1 = name) =
        match d.find? (fun p => p.1 = name) with
        | some v => some v
        | none => subs.find? (fun p => p.1 = name) := by
  intro subs
  induction subs with
  | nil =>
    intro d
    show d.find? _ = _
    rcases hd : d.find? (fun p => p.1 = name) with _ | v
    · rw [hd]
      rfl
    · rw [hd]
  | cons st rest ih =>
    intro d
    have hrw : factoryRegister d (st :: rest) =
        factoryRegister
          (match d.find? (fun p => p.1 = st.1) with
           | some _ => d
           | none => d ++ [st]) rest := rfl
    rw [hrw]
    rcases hd : d.find? (fun p => p.1 = st.1) with _ | w
    · -- the name of st is not yet registered, so st is appended
      simp only [hd, ih, find?_append_match]
      rcases hP : d.find? (fun p => p.1 = name) with _ | v
      · simp only [hP]
        by_cases hs : st.1 = name
        · have hfind : ([st] : List (String × α)).find? (fun p => p.1 = name) = some st :=
            List.find?_cons_of_pos _ (by simp [hs])
          have hcons : (st :: rest).find? (fun p => p.1 = name) = some st :=
            List.find?_cons_of_pos _ (by simp [hs])
          rw [hfind, hcons]
        · have hfind : ([st] : List (String × α)).find? (fun p => p.1 = name) = none :=
            List.find?_cons_of_neg _ (by simp [hs])
          have hcons : (st :: rest).find? (fun p => p.1 = name) =
              rest.find? (fun p => p.1 = name) :=
            List.find?_cons_of_neg _ (by simp [hs])
          rw [hfind, hcons]
      · simp only [hP]
    · -- the name of st is already registered, so registration is skipped
      simp only [hd, ih]
      rcases hP : d.find? (fun p => p.1 = name) with _ | v
      · simp only [hP]
        by_cases hs : st.1 = name
        · subst hs
          rw [hP] at hd
          exact absurd hd (by simp)
        · have hcons : (st :: rest).find? (fun p => p.1 = name) =
              rest.find? (fun p => p.1 = name) :=
            List.find?_cons_of_neg _ (by simp [hs])
          rw [hcons]
      · simp only [hP]

theorem factoryRegister_present {α : Type} (subs : List (String × α)) (d : List (String × α))
    (st : String × α) (hst : st ∈ subs) :
    ((factoryRegister d subs).find? (fun p => p.1 = st.1)).isSome := by
  rw [factoryRegister_find? st.1 subs d]
  rcases hd : d.find? (fun p => p.1 = st.1) with _ | v
  · simp only [hd]
    rw [List.find?_isSome]
    exact ⟨st, hst, by simp⟩
  · simp only [hd]
    rfl

theorem factoryRegister_noop {α : Type} :
    ∀ (subs d : List (String × α)),
      (∀ st ∈ subs, (d.find? (fun p => p.1 = st.1)).isSome) →
      factoryRegister d subs = d := by
  intro subs
  induction subs with
  | nil => intro d _; rfl
  | cons st rest ih =>
    intro d hall
    have h1 := hall st (List.mem_cons_self st rest)
    rcases hd : d.find? (fun p => p.1 = st.1) with _ | w
    · rw [hd] at h1; simp at h1
    · have hrw : factoryRegister d (st :: rest) =
          factoryRegister
            (match d.find? (fun p => p.1 = st.1) with
             | some _ => d
             | none => d ++ [st]) rest := rfl
      rw [hrw, hd]
      exact ih d (fun st2 hst2 => hall st2 (List.mem_cons_of_mem st hst2))

/- Concrete inputs used by the witnesses and the counterexample. -/

def dfltCaseSpec : CaseSpec :=
  { retry := 0, ignore_failure := false,
    before_case := fun _ => none, body := fun _ => none, after_case := fun _ => none }

def dfltPair : CaseSpec × TestResult := (dfltCaseSpec, dfltTestResult)

def dfltRC : TestResult × CaseTrace := (dfltTestResult, dfltCaseTrace)

/-- A workload with retry 2 whose body raises on every attempt. -/
def specAlwaysFail : CaseSpec :=
  { retry := 2, ignore_failure := false,
    before_case := fun _ => none, body := fun _ => some "boom",
    after_case := fun _ => none }

/-- A workload with retry 1 whose before_case raises on every attempt. -/
def specBeforeFail : CaseSpec :=
  { retry := 1, ignore_failure := false,
    before_case := fun _ => some "setup broken", body := fun _ => some "never",
    after_case := fun _ => none }

/-- A workload with ignore_failure set and an always failing body. -/
def specIgnored : CaseSpec :=
  { retry := 0, ignore_failure := true,
    before_case := fun _ => none, body := fun _ => some "boom",
    after_case := fun _ => none }

/-- A workload with retry 1 whose after_case raises on every attempt. -/
def specAfterFail : CaseSpec :=
  { retry := 1, ignore_failure := false,
    before_case := fun _ => none, body := fun _ => none,
    after_case := fun _ => some "cleanup broken" }

/-- A suite whose before_suite raises. -/
def suiteSpecFail : SuiteSpec := { before_suite := some "db down", after_suite := none }

/-- A run with one selected workload and no prepared environment. -/
def runInputNoEnv : RunInput :=
  { cases := [{ dfltCaseData with suiteName := "s1" }],
    envNames := [],
    deploy := fun _ => DeployResult.ready,
    check := fun _ _ => (true, []),
    beforeSuite := fun _ => none }

/-- A run with one environment that satisfies no workload requirement, so
the environment is iterated but skipped and never deployed. -/
def runInputSkippedEnv : RunInput :=
  { cases := [{ dfltCaseData with suiteName := "s1" }],
    envNames := ["e0"],
    deploy := fun _ => DeployResult.ready,
    check := fun _ _ => (false, ["node count mismatch"]),
    beforeSuite := fun _ => none }

/-- C1: after LisaRunner.start completes, the exit code of the runner
equals the number of selected workload results whose terminal status is
FAILED; in particular it is 0 when no workload ended FAILED, including
when every workload was skipped. -/
theorem runner_exit_code_eq_failed_count (inp : RunInput) :
    (lisaRunnerStart inp).exit_code =
      ((lisaRunnerStart inp).results.filter
        (fun rs => rs.result.status = TestStatus.FAILED)).length :=
  resultCount_eq (sweep (runnerLoopState inp).canRun (runnerLoopState inp).results)
    TestStatus.FAILED

/-- C2: with runtime retry n, an always raising body is invoked exactly
n + 1 times and the workload ends FAILED; the same n + 1 attempt budget
applies independently to before_case, and exhausting it marks the
workload SKIPPED and suppresses the body entirely. -/
theorem testsuite_retry_budget (spec : CaseSpec) (m : String) (r : TestResult)
    (hbody : ∀ k, spec.body k ≠ none) (hig : spec.ignore_failure = false) :
    ((retry_call spec.before_case (spec.retry + 1)).2 = none →
      (runCase spec true m r).2.bodyAttempts = spec.retry + 1 ∧
      (runCase spec true m r).1.status = TestStatus.FAILED) ∧
    ((∀ k, spec.before_case k ≠ none) →
      (runCase spec true m r).2.beforeCaseAttempts = spec.retry + 1 ∧
      (runCase spec true m r).1.status = TestStatus.SKIPPED ∧
      (runCase spec true m r).2.bodyAttempts = 0) := by
  constructor
  · intro hb
    obtain ⟨htn, hts⟩ := retry_call_all_fail spec.body (spec.retry + 1) hbody
    rcases ht : (retry_call spec.body (spec.retry + 1)).2 with _ | e
    · exact absurd ht hts
    · rw [runCase_body_fail spec m r e hb ht hig]
      exact ⟨htn, set_status_status _ _ _⟩
  · intro hbc
    obtain ⟨hbn, hbs⟩ := retry_call_all_fail spec.before_case (spec.retry + 1) hbc
    rcases hb : (retry_call spec.before_case (spec.retry + 1)).2 with _ | e
    · exact absurd hb hbs
    · rw [runCase_before_fail spec m r e hb]
      exact ⟨hbn, set_status_status _ _ _, rfl⟩

/-- Witness for C2 at concrete workloads with retry 2 and retry 1. -/
theorem testsuite_retry_budget_witness :
    ((runCase specAlwaysFail true "" dfltTestResult).2.bodyAttempts = 3 ∧
      (runCase specAlwaysFail true "" dfltTestResult).1.status = TestStatus.FAILED) ∧
    ((runCase specBeforeFail true "" dfltTestResult).2.beforeCaseAttempts = 2 ∧
      (runCase specBeforeFail true "" dfltTestResult).1.status = TestStatus.SKIPPED ∧
      (runCase specBeforeFail true "" dfltTestResult).2.bodyAttempts = 0) :=
  ⟨(testsuite_retry_budget specAlwaysFail "" dfltTestResult
      (fun k => by simp [specAlwaysFail]) rfl).1 (by decide),
   (testsuite_retry_budget specBeforeFail "" dfltTestResult
      (fun k => by simp [specBeforeFail]) rfl).2 (fun k => by simp [specBeforeFail])⟩

/-- C3: a workload with ignore_failure set never ends FAILED; when its
body fails on every attempt it ends ATTEMPTED; and an ATTEMPTED result
contributes nothing to the FAILED count that becomes the exit code. -/
theorem ignore_failure_yields_attempted (spec : CaseSpec) (c : Bool) (m : String)
    (r : TestResult) (hig : spec.ignore_failure = true) :
    (runCase spec c m r).1.status ≠ TestStatus.FAILED ∧
    ((∀ k, spec.body k ≠ none) →
      (retry_call spec.before_case (spec.retry + 1)).2 = none →
      (runCase spec true m r).1.status = TestStatus.ATTEMPTED) ∧
    (∀ (l : List ResultState) (x : ResultState), x.result.status = TestStatus.ATTEMPTED →
      resultCount (x :: l) TestStatus.FAILED = resultCount l TestStatus.FAILED) := by
  refine ⟨?_, ?_, ?_⟩
  · cases c with
    | false =>
      have h : (runCase spec false m r).1.status = TestStatus.SKIPPED := by
        rw [runCase_false_eq]
        exact set_status_status _ _ _
      rw [h]
      simp
    | true =>
      rcases hb : (retry_call spec.before_case (spec.retry + 1)).2 with _ | e
      · rcases ht : (retry_call spec.body (spec.retry + 1)).2 with _ | e2
        · have h : (runCase spec true m r).1.status = TestStatus.PASSED := by
            rw [runCase_pass spec m r hb ht]
            exact set_status_status _ _ _
          rw [h]
          simp
        · have h : (runCase spec true m r).1.status = TestStatus.ATTEMPTED := by
            rw [runCase_body_fail_ignored spec m r e2 hb ht hig]
            exact set_status_status _ _ _
          rw [h]
          simp
      · have h : (runCase spec true m r).1.status = TestStatus.SKIPPED := by
          rw [runCase_before_fail spec m r e hb]
          exact set_status_status _ _ _
        rw [h]
        simp
  · intro hbody hb
    obtain ⟨_, hts⟩ := retry_call_all_fail spec.body (spec.retry + 1) hbody
    rcases ht : (retry_call spec.body (spec.retry + 1)).2 with _ | e
    · exact absurd ht hts
    · rw [runCase_body_fail_ignored spec m r e hb ht hig]
      exact set_status_status _ _ _
  · intro l x hx
    rw [resultCount_eq, resultCount_eq]
    rw [List.filter_cons_of_neg (by simp [hx])]

/-- Witness for C3 at a concrete ignore_failure workload. -/
theorem ignore_failure_yields_attempted_witness :
    (runCase specIgnored true "" dfltTestResult).1.status ≠ TestStatus.FAILED ∧
    (runCase specIgnored true "" dfltTestResult).1.status = TestStatus.ATTEMPTED :=
  ⟨(ignore_failure_yields_attempted specIgnored true "" dfltTestResult rfl).1,
   (ignore_failure_yields_attempted specIgnored true "" dfltTestResult rfl).2.1
     (fun k => by simp [specIgnored]) (by decide)⟩

/-- C4: after LisaRunner.start completes every selected workload result
has one of the four terminal statuses and none remains NOTRUN; a workload
still NOTRUN after the environment loop is set SKIPPED with the message
no available environment, with the accumulated capability check reasons
appended when any non empty list was recorded. -/
theorem runner_exhaustive_disposition (inp : RunInput) :
    (∀ rs ∈ (lisaRunnerStart inp).results, rs.result.status ∈ terminalStatuses) ∧
    (∀ i, i < inp.cases.length →
      ((runnerLoopState inp).results.getD i dfltResultState).result.status =
        TestStatus.NOTRUN →
      ((lisaRunnerStart inp).results.getD i dfltResultState).result.status =
        TestStatus.SKIPPED ∧
      ((lisaRunnerStart inp).results.getD i dfltResultState).result.message =
        noEnvReason ((runnerLoopState inp).results.getD i dfltResultState).checkResults) ∧
    noEnvReason none = "no available environment" ∧
    (∀ l, l ≠ [] →
      noEnvReason (some l) = "no available environment: " ++ pyListRepr l) := by
  obtain ⟨hlen, hclean, hstatus, hnotif, _⟩ := runnerLoop_inv inp
  have hfin : (lisaRunnerStart inp).results =
      sweep (runnerLoopState inp).canRun (runnerLoopState inp).results := rfl
  refine ⟨?_, ?_, rfl, ?_⟩
  · intro rs hmem
    rw [hfin] at hmem
    rcases List.mem_iff_get.mp hmem with ⟨⟨i, hilt⟩, hget⟩
    have hrs : rs = (sweep (runnerLoopState inp).canRun
        (runnerLoopState inp).results).getD i dfltResultState := by
      rw [getD_eq_get _ i _ hilt, hget]
    have hi : i < inp.cases.length := by
      have h2 := hilt
      rw [sweep_length, hlen] at h2
      exact h2
    have hi2 : i < (runnerLoopState inp).results.length := by rw [hlen]; exact hi
    by_cases hs1 : ((runnerLoopState inp).results.getD i dfltResultState).result.status =
        TestStatus.NOTRUN
    · obtain ⟨hcr, _, _⟩ := hclean i hi hs1
      have happ := sweep_applied (runnerLoopState inp).canRun
        (runnerLoopState inp).results i hcr hi2 hs1
      rw [hrs, happ]
      show (set_status _ TestStatus.SKIPPED _).status ∈ terminalStatuses
      rw [set_status_status]
      simp [terminalStatuses]
    · have hunt := sweep_untouched (runnerLoopState inp).canRun
        (runnerLoopState inp).results i hs1
      rw [hrs, hunt]
      rcases hstatus i hi with h | h
      · exact absurd h hs1
      · exact h
  · intro i hi hs1
    have hi2 : i < (runnerLoopState inp).results.length := by rw [hlen]; exact hi
    obtain ⟨hcr, hmsg, _⟩ := hclean i hi hs1
    have happ := sweep_applied (runnerLoopState inp).canRun
      (runnerLoopState inp).results i hcr hi2 hs1
    rw [hfin, happ]
    constructor
    · show (set_status _ TestStatus.SKIPPED _).status = TestStatus.SKIPPED
      exact set_status_status _ _ _
    · show (set_status _ TestStatus.SKIPPED _).message = _
      rw [set_status_message_of_empty _ _ _ hmsg (by simp)]
      rfl
  · intro l hl
    simp [noEnvReason, hl]

/-- Witness for C4 at a run with no prepared environment. -/
theorem runner_exhaustive_disposition_witness :
    0 < runInputNoEnv.cases.length ∧
    ((runnerLoopState runInputNoEnv).results.getD 0 dfltResultState).result.status =
      TestStatus.NOTRUN ∧
    ((lisaRunnerStart runInputNoEnv).results.getD 0 dfltResultState).result.status =
      TestStatus.SKIPPED :=
  ⟨by decide, by decide,
   ((runner_exhaustive_disposition runInputNoEnv).2.1 0 (by decide) (by decide)).1⟩

/-- C5: when before_suite raises, every workload of the batch is SKIPPED
with the before_suite failure message, before_case and the body are never
invoked for any of them, and after_suite still runs exactly once. -/
theorem before_suite_failure_skips_batch (suite : SuiteSpec) (err : String)
    (cases : List (CaseSpec × TestResult)) (j : Nat)
    (hbs : suite.before_suite = some err) (hj : j < cases.length)
    (hmsg : (cases.getD j dfltPair).2.message = "") :
    ((suiteStart suite cases).1.getD j dfltRC).1.status = TestStatus.SKIPPED ∧
    ((suiteStart suite cases).1.getD j dfltRC).1.message = "before_suite: " ++ err ∧
    ((suiteStart suite cases).1.getD j dfltRC).2.beforeCaseAttempts = 0 ∧
    ((suiteStart suite cases).1.getD j dfltRC).2.bodyAttempts = 0 ∧
    (suiteStart suite cases).2 = 1 := by
  have hmap : (suiteStart suite cases).1.getD j dfltRC =
      runCase (cases.getD j dfltPair).1 (suiteContinue suite.before_suite)
        (suiteErrMsg suite.before_suite) (cases.getD j dfltPair).2 :=
    getD_map _ cases j dfltPair dfltRC hj
  rw [hmap, hbs]
  rw [show suiteContinue (some err) = false from rfl]
  rw [runCase_false_eq]
  refine ⟨set_status_status _ _ _, ?_, rfl, rfl, rfl⟩
  rw [set_status_message_of_empty _ _ _ hmsg (by simp)]
  rfl

/-- Witness for C5 at a concrete one workload batch. -/
theorem before_suite_failure_skips_batch_witness :
    suiteSpecFail.before_suite = some "db down" ∧
    ((suiteStart suiteSpecFail [(dfltCaseSpec, dfltTestResult)]).1.getD 0 dfltRC).1.status =
      TestStatus.SKIPPED ∧
    ((suiteStart suiteSpecFail [(dfltCaseSpec, dfltTestResult)]).1.getD 0 dfltRC).1.message =
      "before_suite: db down" ∧
    ((suiteStart suiteSpecFail [(dfltCaseSpec, dfltTestResult)]).1.getD 0 dfltRC).2.bodyAttempts
      = 0 := by
  have h := before_suite_failure_skips_batch suiteSpecFail "db down"
    [(dfltCaseSpec, dfltTestResult)] 0 rfl (by decide) rfl
  exact ⟨rfl, h.1, h.2.1, h.2.2.2.1⟩

/-- C6: the status (and whole TestResult) a workload ends with does not
depend on the behavior of after_case in any way: an after_case that
raises, even exhausting its retry budget, leaves the result unchanged. -/
theorem after_case_never_changes_status (spec : CaseSpec) (c : Bool) (m : String)
    (r : TestResult) (ac1 ac2 : Nat → Option String) :
    (runCase { spec with after_case := ac1 } c m r).1 =
      (runCase { spec with after_case := ac2 } c m r).1 := by
  cases c with
  | false => rfl
  | true =>
    rcases hb : (retry_call spec.before_case (spec.retry + 1)).2 with _ | e
    · rcases ht : (retry_call spec.body (spec.retry + 1)).2 with _ | e2
      · rw [runCase_pass { spec with after_case := ac1 } m r hb ht,
          runCase_pass { spec with after_case := ac2 } m r hb ht]
      · rcases hig : spec.ignore_failure with _ | _
        · rw [runCase_body_fail
              { spec with ignore_failure := false, after_case := ac1 } m r e2 hb ht rfl,
            runCase_body_fail
              { spec with ignore_failure := false, after_case := ac2 } m r e2 hb ht rfl]
        · rw [runCase_body_fail_ignored
              { spec with ignore_failure := true, after_case := ac1 } m r e2 hb ht rfl,
            runCase_body_fail_ignored
              { spec with ignore_failure := true, after_case := ac2 } m r e2 hb ht rfl]
    · rw [runCase_before_fail { spec with after_case := ac1 } m r e hb,
        runCase_before_fail { spec with after_case := ac2 } m r e hb]

/-- C7: set_status emits a notification exactly when the new status
differs from the current one, and over a whole run no result is ever set
back to NOTRUN: no NOTRUN notification is ever emitted. -/
theorem set_status_notify_iff :
    (∀ (r : TestResult) (s : TestStatus) (m : List String),
      ((set_status r s m).notified ≠ r.notified ↔ s ≠ r.status) ∧
      (set_status r s m).notified =
        (if r.status = s then r.notified else r.notified ++ [s])) ∧
    (∀ (inp : RunInput), ∀ rs ∈ (lisaRunnerStart inp).results,
      TestStatus.NOTRUN ∉ rs.result.notified) := by
  constructor
  · intro r s m
    refine ⟨?_, set_status_notified r s m⟩
    rw [set_status_notified]
    by_cases h : r.status = s
    · simp [h]
    · rw [if_neg h]
      constructor
      · intro _
        exact fun hs => h hs.symm
      · intro _ heq
        have h2 := congrArg List.length heq
        simp at h2
  · intro inp rs hmem
    obtain ⟨hlen, hclean, hstatus, hnotif, _⟩ := runnerLoop_inv inp
    have hfin : (lisaRunnerStart inp).results =
        sweep (runnerLoopState inp).canRun (runnerLoopState inp).results := rfl
    rw [hfin] at hmem
    rcases List.mem_iff_get.mp hmem with ⟨⟨i, hilt⟩, hget⟩
    have hrs : rs = (sweep (runnerLoopState inp).canRun
        (runnerLoopState inp).results).getD i dfltResultState := by
      rw [getD_eq_get _ i _ hilt, hget]
    have hi : i < inp.cases.length := by
      have h2 := hilt
      rw [sweep_length, hlen] at h2
      exact h2
    have hstep := (sweep_step (runnerLoopState inp).canRun
      (runnerLoopState inp).results).2 i (by rw [hlen]; exact hi)
    rw [hrs]
    rcases hstep with hEq | ⟨_, hpres⟩
    · rw [hEq]
      exact hnotif i hi
    · exact hpres (hnotif i hi)

/-- Witness for C7 at a concrete result and a concrete run. -/
theorem set_status_notify_iff_witness :
    ((set_status dfltTestResult TestStatus.PASSED []).notified ≠ dfltTestResult.notified ↔
      TestStatus.PASSED ≠ dfltTestResult.status) ∧
    TestStatus.NOTRUN ∉
      ((lisaRunnerStart runInputNoEnv).results.getD 0 dfltResultState).result.notified :=
  ⟨(set_status_notify_iff.1 dfltTestResult TestStatus.PASSED []).1,
   set_status_notify_iff.2 runInputNoEnv _ (by decide)⟩

/-- Counterexample to C8 as stated: in runInputSkippedEnv the environment
0 is iterated by the scheduler loop (its iteration is entered and exited),
but delete_environment is never invoked, because the environment was
skipped before deployment and so never became ready; deprovisioning is
guarded by environment.is_ready in the finally clause. -/
theorem runner_delete_skipped_env_cex :
    0 ∈ (lisaRunnerStart runInputSkippedEnv).iterated ∧
    (lisaRunnerStart runInputSkippedEnv).deleteCalls = [] := by decide

/-- C8 amended: delete_environment is invoked on exit from an iteration
exactly for the environments whose deploy call returned ready; an
environment skipped before deployment, waiting for more resources, or
left not ready by deploy is not deprovisioned. -/
theorem runner_delete_iff_deploy_ready (inp : RunInput) :
    (lisaRunnerStart inp).deleteCalls =
      ((lisaRunnerStart inp).deployCalls.filter
        (fun p => p.2 = DeployResult.ready)).map Prod.fst :=
  (runnerLoop_inv inp).2.2.2.2

/-- C9: duplicate registration in the Factory keeps the first registered
implementation: create_by_type_name returns the implementation of the
first subclass in registration order declaring the name, and repeating
the whole initialization leaves the registry unchanged. -/
theorem factory_first_registration_wins {α : Type} :
    (∀ (subs : List (String × α)) (name : String),
      create_by_type_name (factoryRegister [] subs) name =
        (subs.find? (fun p => p.1 = name)).map Prod.snd) ∧
    (∀ (subs : List (String × α)),
      factoryRegister (factoryRegister [] subs) subs = factoryRegister [] subs) := by
  constructor
  · intro subs name
    unfold create_by_type_name
    rw [factoryRegister_find? name subs []]
    rfl
  · intro subs
    exact factoryRegister_noop subs (factoryRegister [] subs)
      (fun st hst => factoryRegister_present subs (@List.nil (String × α)) st hst)

/-- C10: after_case is invoked at least once for every workload of the
batch, whatever before_suite, before_case and the body did, and an always
raising after_case is invoked exactly retry + 1 times. -/
theorem after_case_always_invoked (suite : SuiteSpec) (cases : List (CaseSpec × TestResult))
    (j : Nat) (hj : j < cases.length) :
    1 ≤ ((suiteStart suite cases).1.getD j dfltRC).2.afterCaseAttempts ∧
    ((∀ k, (cases.getD j dfltPair).1.after_case k ≠ none) →
      ((suiteStart suite cases).1.getD j dfltRC).2.afterCaseAttempts =
        (cases.getD j dfltPair).1.retry + 1) := by
  have hmap : (suiteStart suite cases).1.getD j dfltRC =
      runCase (cases.getD j dfltPair).1 (suiteContinue suite.before_suite)
        (suiteErrMsg suite.before_suite) (cases.getD j dfltPair).2 :=
    getD_map _ cases j dfltPair dfltRC hj
  rw [hmap, runCase_afterAttempts]
  constructor
  · exact retry_call_fst_pos _ _
  · intro hall
    exact (retry_call_all_fail _ _ hall).1

/-- Witness for C10: a batch whose before_suite fails, so the workload is
skipped without running its body, and whose after_case always raises:
after_case is still invoked, exactly retry + 1 = 2 times. -/
theorem after_case_always_invoked_witness :
    1 ≤ ((suiteStart suiteSpecFail [(specAfterFail, dfltTestResult)]).1.getD 0
      dfltRC).2.afterCaseAttempts ∧
    ((suiteStart suiteSpecFail [(specAfterFail, dfltTestResult)]).1.getD 0
      dfltRC).2.afterCaseAttempts = 2 :=
  ⟨(after_case_always_invoked suiteSpecFail [(specAfterFail, dfltTestResult)] 0
      (by decide)).1,
   (after_case_always_invoked suiteSpecFail [(specAfterFail, dfltTestResult)] 0
      (by decide)).2 (fun k => by simp [specAfterFail, dfltPair])⟩
